import Mathlib

/-!
Verification of pkg/deploy/dapp_chart.go and the cleanup command of werf.

The Go sources are shallowly embedded: the filesystem is a list of
(path, content) pairs where a path is a list of components, side effects
are recorded as an explicit trace of read/write operations, and fallible
external calls (yaml marshalling, the various init/setup helpers of the
cleanup command) are passed in as explicit `Except` results.
-/

/-! ## Definitions: shallow embedding of the sources and the spec-modelled collaborators -/

deriving instance DecidableEq for Except

/-- A filesystem path, as a list of components (Go joins them with `/`). -/
abbrev FPath := List String

/-- File contents (Go `[]byte`), as a list of characters. -/
abbrev Bytes := List Char

/-- Error values (Go `error`), as strings. -/
abbrev Err := String

/-- A `secret.Secret` interface value: `none` models the nil interface. -/
abbrev SecretKey := String

/-- The filesystem: an association list from paths to file contents.
Directories are implicit (a directory exists when some file lies under it). -/
abbrev FS := List (FPath × Bytes)

/-- One filesystem effect of the program: reading (or stat-ing) a path,
or writing a file. -/
inductive FsOp where
  | read (p : FPath)
  | write (p : FPath) (content : Bytes)
deriving Repr, DecidableEq

/-- First-match lookup in the association-list filesystem. -/
def fsRead : FS → FPath → Option Bytes
  | [], _ => none
  | e :: rest, p => if e.1 = p then some e.2 else fsRead rest p

/-- Apply one operation to the filesystem; a write shadows older entries. -/
def applyOp (fs : FS) : FsOp → FS
  | .read _ => fs
  | .write p c => (p, c) :: fs

/-- Apply a trace of operations, left to right. -/
def applyOps (fs : FS) (ops : List FsOp) : FS := ops.foldl applyOp fs

/-- The writes of a trace, in order. -/
def writesOf : List FsOp → List (FPath × Bytes)
  | [] => []
  | .read _ :: rest => writesOf rest
  | .write p c :: rest => (p, c) :: writesOf rest

/-- The paths read (or stat-ed) by a trace, in order. -/
def readsOf : List FsOp → List FPath
  | [] => []
  | .read p :: rest => p :: readsOf rest
  | .write _ _ :: rest => readsOf rest

/-- `os.Stat` existence check: a path exists when it is a file or a
directory containing some file. -/
def statExists (fs : FS) (p : FPath) : Bool :=
  fs.any (fun e => p.isPrefixOf e.1)

/-- The files lying under a directory (the `filepath.Walk` enumeration
restricted to regular files; directory entries carry no content here). -/
def filesUnder (fs : FS) (dir : FPath) : List (FPath × Bytes) :=
  fs.filter (fun e => dir.isPrefixOf e.1)

/-- The character of one decimal digit. -/
def digitChar (d : Nat) : Char := Char.ofNat (48 + d)

/-- The decimal digit characters of a natural number, most significant
first, as printed by Go's `%d` verb. -/
def decimalChars (n : Nat) : List Char :=
  if n = 0 then ['0'] else ((Nat.digits 10 n).reverse.map digitChar)

/-- Go's `fmt.Sprintf("%d", n)` for an unsigned counter. -/
def decimalRepr (n : Nat) : String := (decimalChars n).asString

/-- The generated more-values file name `fmt.Sprintf("%d.yaml", n)`. -/
def natYamlName (n : Nat) : String := decimalRepr n ++ ".yaml"

def DefaultSecretValuesFile : String := "secret-values.yaml"

def SecretDirName : String := "secret"

def DecodedSecretDirName : String := "decoded-secret"

def MoreValuesDirName : String := "more-values"

/-- The literal ".helm" of `PrepareDappChart`. -/
def helmDirName : String := ".helm"

/-- The `DappChart` struct: `moreValuesCounter` is the unexported per-chart
counter field naming generated value-override files. -/
structure DappChart where
  ChartDir : FPath
  Values : List FPath
  Set : List String
  moreValuesCounter : Nat
deriving Repr, DecidableEq

/-- `decodeSecretValues(data, secret)`: returns `data` unchanged, nil error. -/
def decodeSecretValues (data : Bytes) (s : Option SecretKey) : Except Err Bytes :=
  .ok data

/-- `decodeSecret(data, secret)`: returns `data` unchanged, nil error. -/
def decodeSecret (data : Bytes) (s : Option SecretKey) : Except Err Bytes :=
  .ok data

/-- The path of the next generated more-values file of a chart. -/
def moreValuesPath (chart : DappChart) : FPath :=
  chart.ChartDir ++ [MoreValuesDirName, natYamlName chart.moreValuesCounter]

/-- `(chart *DappChart) SetValues(values)`.  The result of
`yaml.Marshal(values)` is passed in explicitly; `os.MkdirAll` and
`ioutil.WriteFile` cannot fail in the pure filesystem model.  The returned
triple is (receiver after the call, error, filesystem trace): the receiver
is mutated only after the write succeeded, exactly as in the source. -/
def DappChart.setValues (chart : DappChart) (marshalResult : Except Err Bytes) :
    DappChart × Option Err × List FsOp :=
  let path := moreValuesPath chart
  match marshalResult with
  | .error e => (chart, some ("cannot marshal values to yaml: " ++ e), [])
  | .ok data =>
    ({ chart with
        Values := chart.Values ++ [path]
        moreValuesCounter := chart.moreValuesCounter + 1 },
      none, [FsOp.write path data])

/-- `(chart *DappChart) SetValuesSet(set)`. -/
def DappChart.setValuesSet (chart : DappChart) (s : String) : DappChart :=
  { chart with Set := chart.Set ++ [s] }

/-- `(chart *DappChart) SetValuesFile(path)`. -/
def DappChart.setValuesFile (chart : DappChart) (path : FPath) : DappChart :=
  { chart with Values := chart.Values ++ [path] }

/-- `(chart *DappChart) SetSecretValuesFile(path, secret)`: read the file,
decode it, write the decoded data to the next more-values file, then append
the new path and bump the counter. -/
def DappChart.setSecretValuesFile (chart : DappChart) (fs : FS) (path : FPath)
    (s : Option SecretKey) : DappChart × Option Err × List FsOp :=
  match fsRead fs path with
  | none => (chart, some "cannot read secret values file", [FsOp.read path])
  | some data =>
    match decodeSecretValues data s with
    | .error e =>
      (chart, some ("cannot decode secret values file data: " ++ e), [FsOp.read path])
    | .ok decodedData =>
      let newPath := moreValuesPath chart
      ({ chart with
          Values := chart.Values ++ [newPath]
          moreValuesCounter := chart.moreValuesCounter + 1 },
        none, [FsOp.read path, FsOp.write newPath decodedData])

/-- `helm` chart options passed to `DeployHelmChart`. -/
structure HelmChartOptions where
  Set : List String
  Values : List FPath
  KubeContext : String
  DryRun : Bool
  Debug : Bool
deriving Repr, DecidableEq

/-- `(chart *DappChart) Deploy(releaseName, namespace, opts)`: calls
`DeployHelmChart` (a collaborator of this file, passed in as a function)
on the chart dir with the combined options. -/
def DappChart.deploy {α : Type} (deployHelmChart : FPath → String → String → HelmChartOptions → α)
    (chart : DappChart) (releaseName : String) (ns : String) (opts : HelmChartOptions) : α :=
  deployHelmChart chart.ChartDir releaseName ns
    { Set := chart.Set ++ opts.Set
      Values := chart.Values ++ opts.Values
      KubeContext := opts.KubeContext
      DryRun := opts.DryRun
      Debug := opts.Debug }

/-- Go's `unicode.IsSpace` on the Latin-1 range (the range relevant to the
whitespace stripped from secret files). -/
def goIsSpace (c : Char) : Bool :=
  c = ' ' || c = '\t' || c = '\n' || c = Char.ofNat 11 || c = Char.ofNat 12 ||
    c = '\r' || c = Char.ofNat 0x85 || c = Char.ofNat 0xA0

/-- `strings.TrimRightFunc(s, unicode.IsSpace)`. -/
def trimRightSpace (data : Bytes) : Bytes :=
  (data.reverse.dropWhile goIsSpace).reverse

/-- The trace of `copy.Copy(src, dst)` over an enumerated source tree:
each file under `src` is read and re-created under `dst` at the same
relative path. -/
def copyEntryOps (dst : FPath) (srcLen : Nat) : List (FPath × Bytes) → List FsOp
  | [] => []
  | e :: rest =>
    FsOp.read e.1 :: FsOp.write (dst ++ e.1.drop srcLen) e.2 ::
      copyEntryOps dst srcLen rest

/-- `copy.Copy(src, dst)`: fails when the source directory does not exist
(holds no files), otherwise copies every file under `src` into `dst`. -/
def copyTree (fs : FS) (src dst : FPath) : Except Err (List FsOp) :=
  let entries := filesUnder fs src
  if entries.isEmpty then .error "no such file or directory"
  else .ok (FsOp.read src :: copyEntryOps dst src.length entries)

/-- The body of the `filepath.Walk` over the project secret directory:
every regular file is re-created under `targetDir/decoded-secret` at its
relative path; with a nil secret the new file is written empty, otherwise
the file is read, right-trimmed of whitespace, decoded and written.  The
walk itself stats each visited entry, recorded as a read.  The decode
error arm mirrors the source's abort; it is unreachable because
`decodeSecret` is a pass-through. -/
def walkSecretDir (targetDir : FPath) (sdLen : Nat) (s : Option SecretKey) :
    List (FPath × Bytes) → List FsOp
  | [] => []
  | e :: rest =>
    let newPath := targetDir ++ DecodedSecretDirName :: e.1.drop sdLen
    match s with
    | none =>
      FsOp.read e.1 :: FsOp.write newPath [] :: walkSecretDir targetDir sdLen s rest
    | some k =>
      match decodeSecret (trimRightSpace e.2) (some k) with
      | .ok decodedData =>
        FsOp.read e.1 :: FsOp.write newPath decodedData ::
          walkSecretDir targetDir sdLen s rest
      | .error _ => [FsOp.read e.1]

/-- The secret-directory phase of `PrepareDappChart`: stat
`projectDir/secret` and, when present, walk it. -/
def prepareSecretPhase (fs : FS) (projectDir targetDir : FPath)
    (s : Option SecretKey) : List FsOp :=
  let secretDir := projectDir ++ [SecretDirName]
  if statExists fs secretDir then
    FsOp.read secretDir ::
      walkSecretDir targetDir secretDir.length s (filesUnder fs secretDir)
  else [FsOp.read secretDir]

/-- `PrepareDappChart(projectDir, targetDir, opts)`.  `helpersTpl` stands
for the `DappChartHelpersTpl` blob defined elsewhere in pkg/deploy; its
content is irrelevant here.  Returns the chart (or the error) together
with the full trace of filesystem effects, partial effects included on the
error paths. -/
def prepareDappChart (fs : FS) (projectDir targetDir : FPath)
    (s : Option SecretKey) (helpersTpl : Bytes) :
    Except Err DappChart × List FsOp :=
  let dappChart : DappChart :=
    { ChartDir := targetDir, Values := [], Set := [], moreValuesCounter := 0 }
  let projectHelmDir := projectDir ++ [helmDirName]
  match copyTree fs projectHelmDir targetDir with
  | .error e =>
    (.error ("unable to copy project helm dir: " ++ e), [FsOp.read projectHelmDir])
  | .ok copyOps =>
    let fs1 := applyOps fs copyOps
    let helpersTplPath := targetDir ++ ["templates", "_dapp_helpers.tpl"]
    let hOps := [FsOp.write helpersTplPath helpersTpl]
    let fs2 := applyOps fs1 hOps
    let defaultSecretValues := projectDir ++ [DefaultSecretValuesFile]
    let statOps := [FsOp.read defaultSecretValues]
    if statExists fs2 defaultSecretValues then
      match dappChart.setSecretValuesFile fs2 defaultSecretValues s with
      | (_, some e, svOps) => (.error e, copyOps ++ hOps ++ statOps ++ svOps)
      | (chart1, none, svOps) =>
        let fs3 := applyOps fs2 svOps
        (.ok chart1,
          copyOps ++ hOps ++ statOps ++ svOps ++
            prepareSecretPhase fs3 projectDir targetDir s)
    else
      (.ok dappChart,
        copyOps ++ hOps ++ statOps ++ prepareSecretPhase fs2 projectDir targetDir s)

/-- All writes of a trace land under a directory. -/
def WritesUnder (td : FPath) (ops : List FsOp) : Prop :=
  ∀ e ∈ writesOf ops, td <+: e.1

/-- All reads and stats of a trace hit paths under a directory. -/
def ReadsUnder (pd : FPath) (ops : List FsOp) : Prop :=
  ∀ p ∈ readsOf ops, pd <+: p

/-- The content written for one secret file. -/
def secretOut (s : Option SecretKey) (data : Bytes) : Bytes :=
  match s with
  | none => []
  | some _ => trimRightSpace data

/-- A concrete filesystem on which PrepareDappChart is exercised with the
target directory nested inside the project directory. -/
def fsC2 : FS := [((["p", ".helm", "f"] : FPath), (['x'] : Bytes))]

/-- A concrete project for the C4 witness: one chart file and one secret
file whose content carries a trailing newline. -/
def fsC4 : FS :=
  [((["p", ".helm", "t"] : FPath), (['x'] : Bytes)),
   ((["p", "secret", "a"] : FPath), (['s', '\n'] : Bytes))]

/-- The digit list rendered by `decimalChars`: `%d` prints `0` as a single
zero digit and any other number without leading zeros. -/
def paddedDigits (n : Nat) : List Nat :=
  if n = 0 then [0] else Nat.digits 10 n

/-- A sample chart used to instantiate the claims at concrete inputs. -/
def chartEx : DappChart :=
  { ChartDir := ["tmp", "chart"], Values := [["tmp", "v0.yaml"]], Set := ["a=b"],
    moreValuesCounter := 3 }

/-- cleanup.CommonRepoOptions. -/
structure CommonRepoOptions where
  ImagesRepo : String
  StagesStorage : String
  ImagesNames : List String
  DryRun : Bool
deriving Repr, DecidableEq

/-- cleanup.CommonOptions. -/
structure CommonOptions where
  DryRun : Bool
deriving Repr, DecidableEq

/-- cleanup.CommonProjectOptions. -/
structure CommonProjectOptions where
  ProjectName : String
  CommonOptions : CommonOptions
deriving Repr, DecidableEq

/-- git_repo.Local. -/
structure LocalGitRepo where
  Path : String
  GitDir : String
deriving Repr, DecidableEq

/-- The parsed images-cleanup policies, an opaque payload here. -/
abbrev CleanupPolicies := List String

/-- cleanup.ImagesCleanupOptions. -/
structure ImagesCleanupOptions where
  CommonRepoOptions : CommonRepoOptions
  LocalGit : Option LocalGitRepo
  WithoutKube : Bool
  Policies : CleanupPolicies
deriving Repr, DecidableEq

/-- cleanup.StagesCleanupOptions. -/
structure StagesCleanupOptions where
  CommonRepoOptions : CommonRepoOptions
  CommonProjectOptions : CommonProjectOptions
deriving Repr, DecidableEq

/-- cleanup.CleanupOptions. -/
structure CleanupOptions where
  StagesCleanupOptions : StagesCleanupOptions
  ImagesCleanupOptions : ImagesCleanupOptions
deriving Repr, DecidableEq

/-- werfConfig.Meta. -/
structure WerfMeta where
  Project : String
deriving Repr, DecidableEq

/-- One entry of werfConfig.Images. -/
structure WerfImage where
  Name : String
deriving Repr, DecidableEq

/-- The loaded werf config. -/
structure WerfConfig where
  Meta : WerfMeta
  Images : List WerfImage
deriving Repr, DecidableEq

/-- The command-local flag data: --without-kube. -/
structure CmdData where
  WithoutKube : Bool
deriving Repr, DecidableEq

/-- The shared flag data of cmd/werf/common consumed by runCleanup. -/
structure CommonCmdData where
  TmpDir : String
  HomeDir : String
  DockerConfig : String
  InsecureRepo : Bool
  KubeConfig : String
  KubeContext : String
  DryRun : Bool
deriving Repr, DecidableEq

/-- The outcomes of the external collaborator calls performed by
runCleanup, passed in explicitly: each field is what the corresponding
call returns on this run. -/
structure RunEnv where
  werfInit : Except Err Unit
  lockInit : Except Err Unit
  dockerRegistryInit : Bool → Except Err Unit
  dockerInit : String → Except Err Unit
  getKubeContext : String → String
  kubeInit : String → String → Except Err Unit
  getProjectDir : Except Err String
  createProjectTmpDir : Except Err String
  getWerfConfig : String → Except Err WerfConfig
  getImagesRepo : String → Except Err String
  getStagesRepo : Except Err String
  dirExists : String → Except Err Bool
  getImagesCleanupPolicies : Except Err CleanupPolicies

/-- runCleanup up to the construction of the cleanup options: the
sequential init and config steps with Go's early error returns, ending
with the CleanupOptions value handed to cleanup.Cleanup (which lives in
pkg/cleanup, outside src, and is composed on top in `runCleanup`).  The
source interleaves the pure option/record constructions between the
fallible calls; they are hoisted after the last call here, which is
semantics-preserving because they have no effects. -/
def runCleanupCore (cmdData : CmdData) (c : CommonCmdData) (env : RunEnv) :
    Except Err CleanupOptions :=
  match env.werfInit with
  | .error e => .error ("initialization error: " ++ e)
  | .ok _ =>
  match env.lockInit with
  | .error e => .error e
  | .ok _ =>
  match env.dockerRegistryInit c.InsecureRepo with
  | .error e => .error e
  | .ok _ =>
  match env.dockerInit c.DockerConfig with
  | .error e => .error e
  | .ok _ =>
  match env.kubeInit (env.getKubeContext c.KubeContext) c.KubeConfig with
  | .error e => .error ("cannot initialize kube: " ++ e)
  | .ok _ =>
  match env.getProjectDir with
  | .error e => .error ("getting project dir failed: " ++ e)
  | .ok projectDir =>
  match env.createProjectTmpDir with
  | .error e => .error ("getting project tmp dir failed: " ++ e)
  | .ok _ =>
  match env.getWerfConfig projectDir with
  | .error e => .error ("bad config: " ++ e)
  | .ok werfConfig =>
  match env.getImagesRepo werfConfig.Meta.Project with
  | .error e => .error e
  | .ok imagesRepo =>
  match env.getStagesRepo with
  | .error e => .error e
  | .ok stagesRepo =>
  match env.dirExists (projectDir ++ "/.git") with
  | .error e => .error e
  | .ok exist =>
  match env.getImagesCleanupPolicies with
  | .error e => .error e
  | .ok policies =>
  let imagesNames := werfConfig.Images.map (fun i => i.Name)
  let commonRepoOptions : CommonRepoOptions :=
    { ImagesRepo := imagesRepo, StagesStorage := stagesRepo,
      ImagesNames := imagesNames, DryRun := c.DryRun }
  let localGitRepo : Option LocalGitRepo :=
    if exist then some { Path := projectDir, GitDir := projectDir ++ "/.git" }
    else none
  let commonProjectOptions : CommonProjectOptions :=
    { ProjectName := werfConfig.Meta.Project,
      CommonOptions := { DryRun := c.DryRun } }
  let imagesCleanupOptions : ImagesCleanupOptions :=
    { CommonRepoOptions := commonRepoOptions, LocalGit := localGitRepo,
      WithoutKube := cmdData.WithoutKube, Policies := policies }
  let stagesCleanupOptions : StagesCleanupOptions :=
    { CommonRepoOptions := commonRepoOptions,
      CommonProjectOptions := commonProjectOptions }
  .ok { StagesCleanupOptions := stagesCleanupOptions,
        ImagesCleanupOptions := imagesCleanupOptions }

/-- runCleanup: the option construction followed by cleanup.Cleanup, whose
behaviour is a collaborator passed as a function. -/
def runCleanup (cmdData : CmdData) (c : CommonCmdData) (env : RunEnv)
    (cleanupFn : CleanupOptions → Except Err Unit) : Except Err Unit :=
  match runCleanupCore cmdData c env with
  | .error e => .error e
  | .ok opts => cleanupFn opts

/-- GitRefSnapshot (spec section 3). -/
structure GitRefSnapshot where
  branches : List String
  tags : List String
  commits : List String
deriving Repr, DecidableEq

/-- The empty git snapshot. -/
def emptyGitRefSnapshot : GitRefSnapshot :=
  { branches := [], tags := [], commits := [] }

/-- Modelled from the spec: the Git Reference Resolver Snapshot (spec 4.1)
lives in pkg/cleanup, which is not under src; an absent repository yields
the empty snapshot, a present one is resolved by the collaborator. -/
def gitRefSnapshot (resolve : LocalGitRepo → GitRefSnapshot) :
    Option LocalGitRepo → GitRefSnapshot
  | none => emptyGitRefSnapshot
  | some repo => resolve repo

/-- A cleanup policy scheme (spec section 3). -/
inductive PolicyScheme where
  | GitBranch
  | GitTag
  | GitCommit
  | Custom
deriving Repr, DecidableEq

/-- A cleanup policy (spec section 3). -/
structure SpecPolicy where
  scheme : PolicyScheme
  pattern : String
  keepLast : Nat
  expireAfter : Option Nat
deriving Repr, DecidableEq

/-- An image tag as seen by the cleaner (spec section 3). -/
structure SpecTag where
  name : String
  ref : String
  createdAt : Nat
  digest : String
deriving Repr, DecidableEq

/-- Modelled from the spec: the match pattern of a policy; the spec leaves
the pattern language open, a star matches every reference. -/
def patternMatches (pat : String) (ref : String) : Bool :=
  pat == "*" || pat == ref

/-- Modelled from the spec: the rank of a tag among the tags sharing its
reference — createdAt descending, ties broken by lexicographically smaller
digest first (spec 4.3). -/
def tagRank (allTags : List SpecTag) (t : SpecTag) : Nat :=
  (allTags.filter fun u => u.ref == t.ref &&
    (u.createdAt > t.createdAt ||
      (u.createdAt == t.createdAt && decide (u.digest < t.digest)))).length

/-- Modelled from the spec: one policy's vote on a tag (spec 4.3, in
pkg/cleanup, not under src): an orphaned reference votes delete without
keepLast/expiry scoring; otherwise the newest keepLast survive
unconditionally and beyond that expiry decides (unset expiry keeps). -/
def policyKeeps (allTags : List SpecTag) (snapshot : List String) (now : Nat)
    (t : SpecTag) (p : SpecPolicy) : Bool :=
  patternMatches p.pattern t.ref &&
    snapshot.contains t.ref &&
    (tagRank allTags t < p.keepLast ||
      match p.expireAfter with
      | none => true
      | some d => now - t.createdAt < d)

/-- Modelled from the spec: Decide (spec 4.3): OR over matching policies;
a tag matching no policy is deleted. -/
def decideKeep (allTags : List SpecTag) (snapshot : List String)
    (policies : List SpecPolicy) (now : Nat) (t : SpecTag) : Bool :=
  policies.any (policyKeeps allTags snapshot now t)

/-- Options of the modelled image cleaner. -/
structure SpecCleanOptions where
  dryRun : Bool
  policies : List SpecPolicy
deriving Repr, DecidableEq

/-- Modelled from the spec: Clean (spec 4.4, in pkg/cleanup, not under
src): classify every tag — cluster-live tags always survive — then issue
the deletions of the delete-classified tags unless dryRun, which only
records the decision.  Returns (classification, issued deletions). -/
def specClean (o : SpecCleanOptions) (tags : List SpecTag)
    (snapshot : List String) (live : List String) (now : Nat) :
    List (SpecTag × Bool) × List SpecTag :=
  let classified := tags.map fun t =>
    (t, decideKeep tags snapshot o.policies now t || live.contains t.name)
  let toDelete := (classified.filter fun e => !e.2).map Prod.fst
  (classified, if o.dryRun then [] else toDelete)

/-- One registered CLI flag. -/
structure FlagSpec where
  name : String
  isBool : Bool
  boolDefault : Bool
deriving Repr, DecidableEq

/-- Modelled from the spec: the common.Setup* helpers of cmd/werf/common
are not under src; each Setup<X> registers its namesake flag (CLI surface,
spec 6; boolean-ness of the optional no-argument flags per that surface). -/
def setupDirFlags : List FlagSpec :=
  [{ name := "dir", isBool := false, boolDefault := false }]

def setupTmpDirFlags : List FlagSpec :=
  [{ name := "tmp-dir", isBool := false, boolDefault := false }]

def setupHomeDirFlags : List FlagSpec :=
  [{ name := "home-dir", isBool := false, boolDefault := false }]

def setupStagesStorageFlags : List FlagSpec :=
  [{ name := "stages-storage", isBool := false, boolDefault := false }]

def setupImagesRepoFlags : List FlagSpec :=
  [{ name := "images-repo", isBool := false, boolDefault := false }]

def setupDockerConfigFlags : List FlagSpec :=
  [{ name := "docker-config", isBool := false, boolDefault := false }]

def setupInsecureRepoFlags : List FlagSpec :=
  [{ name := "insecure-repo", isBool := true, boolDefault := false }]

def setupImagesCleanupPoliciesFlags : List FlagSpec :=
  [{ name := "images-cleanup-policies", isBool := false, boolDefault := false }]

def setupKubeConfigFlags : List FlagSpec :=
  [{ name := "kube-config", isBool := false, boolDefault := false }]

def setupKubeContextFlags : List FlagSpec :=
  [{ name := "kube-context", isBool := false, boolDefault := false }]

def setupDryRunFlags : List FlagSpec :=
  [{ name := "dry-run", isBool := true, boolDefault := false }]

/-- NewCmd's flag registrations, in source order: the common setups, then
the command's own `--without-kube` BoolVarP with default false. -/
def newCmdFlags : List FlagSpec :=
  setupDirFlags ++ setupTmpDirFlags ++ setupHomeDirFlags ++
    setupStagesStorageFlags ++ setupImagesRepoFlags ++ setupDockerConfigFlags ++
    setupInsecureRepoFlags ++ setupImagesCleanupPoliciesFlags ++
    setupKubeConfigFlags ++ setupKubeContextFlags ++ setupDryRunFlags ++
    [{ name := "without-kube", isBool := true, boolDefault := false }]

/-- The lock handle state of the Cleanup Coordinator. -/
structure CoordLock where
  held : Bool
deriving Repr, DecidableEq

def acquireLock (l : CoordLock) : CoordLock := { l with held := true }

def releaseLock (l : CoordLock) : CoordLock := { l with held := false }

/-- The aggregated cleanup report. -/
structure CleanupReport where
  imagesDeleted : List String
  stagesDeleted : List String
deriving Repr, DecidableEq

/-- Modelled from the spec: the Cleanup Coordinator Run (spec 4.7, in
pkg/cleanup, not under src).  Acquire the project lock, run the images
phase then the stages phase, and release the lock on every exit path —
lock unavailable, fatal images phase, fatal stages phase, or success. -/
def coordinatorRun (lockAvailable : Bool)
    (imagesPhase : Except Err (List String))
    (stagesPhase : Except Err (List String)) (l : CoordLock) :
    Except Err CleanupReport × CoordLock :=
  if lockAvailable then
    let l1 := acquireLock l
    match imagesPhase with
    | .error e => (.error e, releaseLock l1)
    | .ok imgs =>
      match stagesPhase with
      | .error e => (.error e, releaseLock l1)
      | .ok stgs =>
        (.ok { imagesDeleted := imgs, stagesDeleted := stgs }, releaseLock l1)
  else (.error "lock unavailable", l)

/-- A concrete collaborator environment on which runCleanupCore succeeds. -/
def envEx : RunEnv :=
  { werfInit := .ok (), lockInit := .ok (),
    dockerRegistryInit := fun _ => .ok (), dockerInit := fun _ => .ok (),
    getKubeContext := fun s => s, kubeInit := fun _ _ => .ok (),
    getProjectDir := .ok "proj", createProjectTmpDir := .ok "tmp",
    getWerfConfig := fun _ =>
      .ok { Meta := { Project := "demo" }, Images := [{ Name := "app" }] },
    getImagesRepo := fun _ => .ok "registry.example.com/demo",
    getStagesRepo := .ok ":local",
    dirExists := fun _ => .ok false,
    getImagesCleanupPolicies := .ok [] }

def cmdDataEx : CmdData := { WithoutKube := true }

def commonCmdDataEx : CommonCmdData :=
  { TmpDir := "", HomeDir := "", DockerConfig := "", InsecureRepo := false,
    KubeConfig := "", KubeContext := "", DryRun := true }

/-! ## Theorems -/

theorem applyOps_append (fs : FS) (a b : List FsOp) :
    applyOps fs (a ++ b) = applyOps (applyOps fs a) b :=
  List.foldl_append ..

theorem writesOf_append (a b : List FsOp) :
    writesOf (a ++ b) = writesOf a ++ writesOf b := by
  induction a with
  | nil => rfl
  | cons op rest ih => cases op <;> simp [writesOf, ih]

theorem readsOf_append (a b : List FsOp) :
    readsOf (a ++ b) = readsOf a ++ readsOf b := by
  induction a with
  | nil => rfl
  | cons op rest ih => cases op <;> simp [readsOf, ih]

theorem applyOps_eq_writes (ops : List FsOp) (fs : FS) :
    applyOps fs ops = (writesOf ops).reverse ++ fs := by
  induction ops generalizing fs with
  | nil => rfl
  | cons op rest ih =>
    cases op with
    | read p => simpa [applyOps, applyOp, writesOf] using ih fs
    | write p c =>
      show applyOps ((p, c) :: fs) rest = _
      rw [ih]
      simp [writesOf]

theorem fsRead_append (a b : FS) (q : FPath) :
    fsRead (a ++ b) q =
      match fsRead a q with
      | some c => some c
      | none => fsRead b q := by
  induction a with
  | nil => simp [fsRead]
  | cons e rest ih =>
    by_cases h : e.1 = q <;> simp [fsRead, h, ih]

theorem fsRead_eq_none (ws : FS) (q : FPath) (h : ∀ e ∈ ws, e.1 ≠ q) :
    fsRead ws q = none := by
  induction ws with
  | nil => rfl
  | cons e rest ih =>
    simp only [fsRead, if_neg (h e (List.mem_cons_self e rest))]
    exact ih fun e' he' => h e' (List.mem_cons_of_mem _ he')

theorem fsRead_of_unique (ws : FS) (q : FPath) (c : Bytes)
    (hmem : (q, c) ∈ ws) (huniq : ∀ e ∈ ws, e.1 = q → e.2 = c) :
    fsRead ws q = some c := by
  induction ws with
  | nil => cases hmem
  | cons e rest ih =>
    by_cases h : e.1 = q
    · simp [fsRead, h, huniq e (List.mem_cons_self e rest) h]
    · simp only [fsRead, if_neg h]
      refine ih ?_ fun e' he' => huniq e' (List.mem_cons_of_mem _ he')
      rcases List.mem_cons.mp hmem with heq | hmem'
      · exact absurd (congrArg Prod.fst heq.symm) h
      · exact hmem'

theorem writesUnder_append {td : FPath} {a b : List FsOp}
    (ha : WritesUnder td a) (hb : WritesUnder td b) : WritesUnder td (a ++ b) := by
  intro e he
  rw [writesOf_append] at he
  rcases List.mem_append.mp he with h | h
  · exact ha e h
  · exact hb e h

theorem readsUnder_append {pd : FPath} {a b : List FsOp}
    (ha : ReadsUnder pd a) (hb : ReadsUnder pd b) : ReadsUnder pd (a ++ b) := by
  intro p hp
  rw [readsOf_append] at hp
  rcases List.mem_append.mp hp with h | h
  · exact ha p h
  · exact hb p h

/-- Paths outside the write cone of a trace are untouched. -/
theorem frame_of_writesUnder {td : FPath} {ops : List FsOp}
    (hw : WritesUnder td ops) (fs : FS) (q : FPath) (hq : ¬ td <+: q) :
    fsRead (applyOps fs ops) q = fsRead fs q := by
  rw [applyOps_eq_writes, fsRead_append]
  have hnone : fsRead (writesOf ops).reverse q = none :=
    fsRead_eq_none _ _ fun e he heq =>
      hq (heq ▸ hw e (List.mem_reverse.mp he))
  simp [hnone]

theorem filesUnder_key (fs : FS) (d : FPath) :
    ∀ e ∈ filesUnder fs d, d <+: e.1 := by
  intro e he
  have := (List.mem_filter.mp he).2
  simpa using this

theorem filesUnder_append (a b : FS) (d : FPath) :
    filesUnder (a ++ b) d = filesUnder a d ++ filesUnder b d :=
  List.filter_append ..

theorem filesUnder_eq_nil (a : FS) (d : FPath) (h : ∀ e ∈ a, ¬ d <+: e.1) :
    filesUnder a d = [] := by
  refine List.filter_eq_nil.mpr fun e he => ?_
  simpa using h e he

theorem filesUnder_mem (fs : FS) (d : FPath) (e : FPath × Bytes)
    (hmem : e ∈ fs) (hpre : d <+: e.1) : e ∈ filesUnder fs d := by
  refine List.mem_filter.mpr ⟨hmem, ?_⟩
  simpa using hpre

theorem filesUnder_keys_nodup (fs : FS) (d : FPath)
    (h : (fs.map Prod.fst).Nodup) : ((filesUnder fs d).map Prod.fst).Nodup :=
  ((List.filter_sublist fs).map Prod.fst).nodup h

/-- In an association list with nodup keys, a key determines its value. -/
theorem keyNodup_eq {l : FS} (h : (l.map Prod.fst).Nodup) {p : FPath}
    {b c : Bytes} (hb : (p, b) ∈ l) (hc : (p, c) ∈ l) : b = c := by
  induction l with
  | nil => cases hb
  | cons e rest ih =>
    rw [List.map_cons, List.nodup_cons] at h
    rcases List.mem_cons.mp hb with rfl | hb'
    · rcases List.mem_cons.mp hc with heq | hc'
      · exact (congrArg Prod.snd heq).symm
      · exact absurd (List.mem_map_of_mem Prod.fst hc') h.1
    · rcases List.mem_cons.mp hc with rfl | hc'
      · exact absurd (List.mem_map_of_mem Prod.fst hb') h.1
      · exact ih h.2 hb' hc'

theorem copyEntryOps_writesOf (dst : FPath) (n : Nat) :
    ∀ l, writesOf (copyEntryOps dst n l) =
      l.map fun e => (dst ++ e.1.drop n, e.2)
  | [] => rfl
  | e :: rest => by
    simp [copyEntryOps, writesOf, copyEntryOps_writesOf dst n rest]

theorem copyEntryOps_readsOf (dst : FPath) (n : Nat) :
    ∀ l, readsOf (copyEntryOps dst n l) = l.map Prod.fst
  | [] => rfl
  | e :: rest => by
    simp [copyEntryOps, readsOf, writesOf, copyEntryOps_readsOf dst n rest]

theorem walkSecretDir_writesOf (td : FPath) (n : Nat) (s : Option SecretKey) :
    ∀ l, writesOf (walkSecretDir td n s l) =
      l.map fun e => (td ++ DecodedSecretDirName :: e.1.drop n, secretOut s e.2)
  | [] => by cases s <;> rfl
  | e :: rest => by
    cases s with
    | none => simp [walkSecretDir, writesOf, secretOut, walkSecretDir_writesOf td n none rest]
    | some k =>
      simp [walkSecretDir, decodeSecret, writesOf, secretOut,
        walkSecretDir_writesOf td n (some k) rest]

theorem walkSecretDir_readsOf (td : FPath) (n : Nat) (s : Option SecretKey) :
    ∀ l, readsOf (walkSecretDir td n s l) = l.map Prod.fst
  | [] => by cases s <;> rfl
  | e :: rest => by
    cases s with
    | none => simp [walkSecretDir, readsOf, walkSecretDir_readsOf td n none rest]
    | some k =>
      simp [walkSecretDir, decodeSecret, readsOf, walkSecretDir_readsOf td n (some k) rest]

theorem writesUnder_single_read (td p : FPath) : WritesUnder td [FsOp.read p] := by
  intro e he; simp [writesOf] at he

theorem readsUnder_single_read {pd p : FPath} (h : pd <+: p) :
    ReadsUnder pd [FsOp.read p] := by
  intro q hq
  simp [readsOf] at hq
  exact hq ▸ h

theorem writesUnder_single_write {td p : FPath} (c : Bytes) (h : td <+: p) :
    WritesUnder td [FsOp.write p c] := by
  intro e he
  simp [writesOf] at he
  rw [he]
  exact h

theorem readsUnder_single_write (pd p : FPath) (c : Bytes) :
    ReadsUnder pd [FsOp.write p c] := by
  intro q hq; simp [readsOf] at hq

theorem copyTree_ok {fs : FS} {src dst : FPath} {ops : List FsOp}
    (h : copyTree fs src dst = .ok ops) :
    ops = FsOp.read src :: copyEntryOps dst src.length (filesUnder fs src) := by
  simp only [copyTree] at h
  split at h
  · cases h
  · cases h; rfl

theorem copyTree_writesUnder {fs : FS} {src dst : FPath} {ops : List FsOp}
    (h : copyTree fs src dst = .ok ops) : WritesUnder dst ops := by
  rw [copyTree_ok h]
  intro e he
  simp only [writesOf, copyEntryOps_writesOf] at he
  obtain ⟨e', -, rfl⟩ := List.mem_map.mp he
  exact List.prefix_append ..

theorem copyTree_readsUnder {fs : FS} {src dst : FPath} {ops : List FsOp}
    (h : copyTree fs src dst = .ok ops) {pd : FPath} (hsrc : pd <+: src) :
    ReadsUnder pd ops := by
  rw [copyTree_ok h]
  intro q hq
  simp only [readsOf, copyEntryOps_readsOf, List.mem_cons] at hq
  rcases hq with rfl | hq
  · exact hsrc
  · obtain ⟨e', he', rfl⟩ := List.mem_map.mp hq
    exact hsrc.trans (filesUnder_key fs src e' he')

theorem setSecretValuesFile_writesUnder (chart : DappChart) (fs : FS)
    (p : FPath) (s : Option SecretKey) :
    WritesUnder chart.ChartDir (chart.setSecretValuesFile fs p s).2.2 := by
  unfold DappChart.setSecretValuesFile
  cases fsRead fs p with
  | none => exact writesUnder_single_read chart.ChartDir p
  | some data =>
    simp only [decodeSecretValues]
    intro e he
    simp [writesOf] at he
    rw [he]
    exact List.prefix_append ..

theorem setSecretValuesFile_readsUnder (chart : DappChart) (fs : FS)
    (p : FPath) (s : Option SecretKey) {pd : FPath} (hp : pd <+: p) :
    ReadsUnder pd (chart.setSecretValuesFile fs p s).2.2 := by
  unfold DappChart.setSecretValuesFile
  cases fsRead fs p with
  | none => exact readsUnder_single_read hp
  | some data =>
    simp only [decodeSecretValues]
    intro q hq
    simp [readsOf] at hq
    rcases hq with rfl | rfl <;> exact hp

theorem prepareSecretPhase_writesUnder (fs : FS) (pd td : FPath)
    (s : Option SecretKey) : WritesUnder td (prepareSecretPhase fs pd td s) := by
  simp only [prepareSecretPhase]
  split
  · intro e he
    simp only [writesOf, walkSecretDir_writesOf] at he
    obtain ⟨e', -, rfl⟩ := List.mem_map.mp he
    exact List.prefix_append ..
  · exact writesUnder_single_read td (pd ++ [SecretDirName])

theorem prepareSecretPhase_readsUnder (fs : FS) (pd td : FPath)
    (s : Option SecretKey) : ReadsUnder pd (prepareSecretPhase fs pd td s) := by
  have hsd : pd <+: pd ++ [SecretDirName] := List.prefix_append ..
  simp only [prepareSecretPhase]
  split
  · intro q hq
    simp only [readsOf, walkSecretDir_readsOf, List.mem_cons] at hq
    rcases hq with rfl | hq
    · exact hsd
    · obtain ⟨e', he', rfl⟩ := List.mem_map.mp hq
      exact hsd.trans (filesUnder_key _ _ e' he')
  · exact readsUnder_single_read hsd

/-- Trace bounds of SetSecretValuesFile, phrased on a call equation. -/
theorem setSecretValuesFile_ops_under {chart : DappChart} {fs : FS} {p : FPath}
    {s : Option SecretKey} {c1 : DappChart} {er : Option Err} {ops : List FsOp}
    (h : chart.setSecretValuesFile fs p s = (c1, er, ops)) {pd : FPath}
    (hp : pd <+: p) : WritesUnder chart.ChartDir ops ∧ ReadsUnder pd ops := by
  have hw := setSecretValuesFile_writesUnder chart fs p s
  have hr := setSecretValuesFile_readsUnder chart fs p s hp
  rw [h] at hw hr
  exact ⟨hw, hr⟩

/-- The full trace of PrepareDappChart writes only under the target dir
and reads only under the project dir. -/
theorem prepare_trace_under (fs : FS) (pd td : FPath) (s : Option SecretKey)
    (tpl : Bytes) :
    WritesUnder td (prepareDappChart fs pd td s tpl).2 ∧
    ReadsUnder pd (prepareDappChart fs pd td s tpl).2 := by
  have hhelm : pd <+: pd ++ [helmDirName] := List.prefix_append ..
  have hdsv : pd <+: pd ++ [DefaultSecretValuesFile] := List.prefix_append ..
  simp only [prepareDappChart]
  split
  · exact ⟨writesUnder_single_read td (pd ++ [helmDirName]), readsUnder_single_read hhelm⟩
  · rename_i copyOps hcopy
    have base : WritesUnder td (copyOps ++
          [FsOp.write (td ++ ["templates", "_dapp_helpers.tpl"]) tpl] ++
          [FsOp.read (pd ++ [DefaultSecretValuesFile])]) ∧
        ReadsUnder pd (copyOps ++
          [FsOp.write (td ++ ["templates", "_dapp_helpers.tpl"]) tpl] ++
          [FsOp.read (pd ++ [DefaultSecretValuesFile])]) :=
      ⟨writesUnder_append (writesUnder_append (copyTree_writesUnder hcopy)
          (writesUnder_single_write tpl (List.prefix_append ..)))
          (writesUnder_single_read td (pd ++ [DefaultSecretValuesFile])),
        readsUnder_append (readsUnder_append (copyTree_readsUnder hcopy hhelm)
          (readsUnder_single_write pd (td ++ ["templates", "_dapp_helpers.tpl"]) tpl))
          (readsUnder_single_read hdsv)⟩
    split
    · split
      · rename_i hsv
        obtain ⟨hsvW, hsvR⟩ := setSecretValuesFile_ops_under hsv hdsv
        exact ⟨writesUnder_append base.1 hsvW, readsUnder_append base.2 hsvR⟩
      · rename_i hsv
        obtain ⟨hsvW, hsvR⟩ := setSecretValuesFile_ops_under hsv hdsv
        exact ⟨writesUnder_append (writesUnder_append base.1 hsvW)
            (prepareSecretPhase_writesUnder _ pd td s),
          readsUnder_append (readsUnder_append base.2 hsvR)
            (prepareSecretPhase_readsUnder _ pd td s)⟩
    · exact ⟨writesUnder_append base.1 (prepareSecretPhase_writesUnder _ pd td s),
        readsUnder_append base.2 (prepareSecretPhase_readsUnder _ pd td s)⟩

/-- C2, counterexample: with projectDir = p and targetDir = p/out the call
succeeds and creates the copied chart file p/out/f — a file under
projectDir that did not exist before — so the claim that no file under
projectDir is ever created fails as universally stated. -/
theorem claim_C2_counterexample :
    (prepareDappChart fsC2 ["p"] ["p", "out"] none []).1 =
      .ok { ChartDir := ["p", "out"], Values := [], Set := [], moreValuesCounter := 0 } ∧
    fsRead fsC2 ["p", "out", "f"] = none ∧
    (["p"] : FPath) <+: ["p", "out", "f"] ∧
    fsRead (applyOps fsC2 (prepareDappChart fsC2 ["p"] ["p", "out"] none []).2)
      ["p", "out", "f"] = some ['x'] := by
  decide

/-- C2 (amended): PrepareDappChart writes only under targetDir and reads
only under projectDir; every path outside targetDir is untouched; and
provided neither directory is nested inside the other (as in real use,
where the target is a fresh tmp dir), no file under projectDir is created,
modified or deleted — secrets are decoded into the new tree, never in
place. -/
theorem claim_C2_amended_frame (fs : FS) (pd td : FPath) (s : Option SecretKey)
    (tpl : Bytes) :
    WritesUnder td (prepareDappChart fs pd td s tpl).2 ∧
    ReadsUnder pd (prepareDappChart fs pd td s tpl).2 ∧
    (∀ q, ¬ td <+: q →
      fsRead (applyOps fs (prepareDappChart fs pd td s tpl).2) q = fsRead fs q) ∧
    (¬ pd <+: td → ¬ td <+: pd → ∀ q, pd <+: q →
      fsRead (applyOps fs (prepareDappChart fs pd td s tpl).2) q = fsRead fs q) := by
  obtain ⟨hw, hr⟩ := prepare_trace_under fs pd td s tpl
  refine ⟨hw, hr, fun q hq => frame_of_writesUnder hw fs q hq, fun h1 h2 q hq => ?_⟩
  refine frame_of_writesUnder hw fs q fun htd => ?_
  rcases List.prefix_or_prefix_of_prefix htd hq with h | h
  · exact h2 h
  · exact h1 h

/-- Witness for C2: on `fsC2` with disjoint project and target dirs, the
project file p/.helm/f is untouched by the call. -/
theorem claim_C2_witness :
    fsRead (applyOps fsC2 (prepareDappChart fsC2 ["p"] ["q", "out"] none []).2)
      ["p", ".helm", "f"] = fsRead fsC2 ["p", ".helm", "f"] :=
  (claim_C2_amended_frame fsC2 ["p"] ["q", "out"] none []).2.2.2 (by decide)
    (by decide) ["p", ".helm", "f"] (by decide)

theorem applyOps_read (fs : FS) (p : FPath) : applyOps fs [FsOp.read p] = fs := rfl

theorem applyOps_nil (fs : FS) : applyOps fs [] = fs := rfl

theorem applyOps_cons (fs : FS) (op : FsOp) (rest : List FsOp) :
    applyOps fs (op :: rest) = applyOps (applyOp fs op) rest := rfl

theorem prefix_drop_eq {d k : FPath} (h : d <+: k) : k = d ++ k.drop d.length := by
  obtain ⟨t, rfl⟩ := h
  rw [List.drop_left]

/-- The walk writes exactly one file for a given secret source file, with
the empty or right-trimmed content according to the secret. -/
theorem walk_unique_write {sd : FPath} {entries : List (FPath × Bytes)}
    (hnd : (entries.map Prod.fst).Nodup)
    (hkeys : ∀ e ∈ entries, sd <+: e.1)
    {p₀ : FPath} {data : Bytes} (hmem : (p₀, data) ∈ entries)
    (td : FPath) (s : Option SecretKey) :
    fsRead (writesOf (walkSecretDir td sd.length s entries)).reverse
      (td ++ DecodedSecretDirName :: p₀.drop sd.length) = some (secretOut s data) := by
  apply fsRead_of_unique
  · rw [List.mem_reverse, walkSecretDir_writesOf]
    exact List.mem_map.mpr ⟨(p₀, data), hmem, rfl⟩
  · intro e he heq
    rw [List.mem_reverse, walkSecretDir_writesOf] at he
    obtain ⟨e', he', rfl⟩ := List.mem_map.mp he
    dsimp only at heq ⊢
    have hcons := List.append_right_injective td heq
    have hdrop : e'.1.drop sd.length = p₀.drop sd.length := by
      injection hcons
    have hkey : e'.1 = p₀ := by
      rw [prefix_drop_eq (hkeys e' he'), hdrop,
        ← prefix_drop_eq (hkeys (p₀, data) hmem)]
    have hmem' : (p₀, e'.2) ∈ entries := by
      rw [← hkey]
      simpa using he'
    rw [keyNodup_eq hnd hmem' hmem]

/-- Looking up a decoded secret file after the secret phase ran on top of a
prefix trace whose writes all lie under the target dir. -/
theorem phase_lookup {fs : FS} (hnd : (fs.map Prod.fst).Nodup) {pd td : FPath}
    (sep1 : ¬ pd <+: td) (sep2 : ¬ td <+: pd)
    {pre : List FsOp} (hpre : WritesUnder td pre)
    {rel : FPath} {data : Bytes}
    (hmem : (pd ++ SecretDirName :: rel, data) ∈ fs)
    (s : Option SecretKey) {fsX : FS} (hfsX : fsX = applyOps fs pre) :
    fsRead (applyOps fs (pre ++ prepareSecretPhase fsX pd td s))
      (td ++ DecodedSecretDirName :: rel) = some (secretOut s data) := by
  subst hfsX
  have hp₀ : pd ++ SecretDirName :: rel = (pd ++ [SecretDirName]) ++ rel :=
    List.append_cons ..
  have hnot : ∀ e ∈ (writesOf pre).reverse, ¬ (pd ++ [SecretDirName]) <+: e.1 := by
    intro e he hcon
    have htd : td <+: e.1 := hpre e (List.mem_reverse.mp he)
    rcases List.prefix_or_prefix_of_prefix htd hcon with h | h
    · rcases List.prefix_or_prefix_of_prefix h
        (List.prefix_append pd [SecretDirName]) with h' | h'
      · exact sep2 h'
      · exact sep1 h'
    · exact sep1 ((List.prefix_append pd [SecretDirName]).trans h)
  have happly : applyOps fs pre = (writesOf pre).reverse ++ fs :=
    applyOps_eq_writes ..
  have hfiles : filesUnder (applyOps fs pre) (pd ++ [SecretDirName]) =
      filesUnder fs (pd ++ [SecretDirName]) := by
    rw [happly, filesUnder_append, filesUnder_eq_nil _ _ hnot, List.nil_append]
  have hstat : statExists (applyOps fs pre) (pd ++ [SecretDirName]) = true := by
    rw [happly]
    refine List.any_eq_true.mpr
      ⟨(pd ++ SecretDirName :: rel, data), List.mem_append_right _ hmem, ?_⟩
    simp only [List.isPrefixOf_iff_prefix]
    rw [hp₀]
    exact List.prefix_append ..
  have hphase : prepareSecretPhase (applyOps fs pre) pd td s =
      FsOp.read (pd ++ [SecretDirName]) ::
        walkSecretDir td (pd ++ [SecretDirName]).length s
          (filesUnder fs (pd ++ [SecretDirName])) := by
    simp only [prepareSecretPhase, hstat, if_true, hfiles]
  rw [applyOps_append, hphase]
  show fsRead (applyOps (applyOps fs pre)
    (walkSecretDir td (pd ++ [SecretDirName]).length s
      (filesUnder fs (pd ++ [SecretDirName])))) _ = _
  rw [applyOps_eq_writes, fsRead_append]
  have hinside : (pd ++ SecretDirName :: rel, data) ∈
      filesUnder fs (pd ++ [SecretDirName]) := by
    refine filesUnder_mem fs _ _ hmem ?_
    rw [hp₀]
    exact List.prefix_append ..
  have hu := walk_unique_write
    (filesUnder_keys_nodup fs (pd ++ [SecretDirName]) hnd)
    (filesUnder_key fs (pd ++ [SecretDirName])) hinside td s
  have hdrop : (pd ++ SecretDirName :: rel).drop (pd ++ [SecretDirName]).length = rel := by
    rw [hp₀]
    exact List.drop_left ..
  rw [hdrop] at hu
  simp only [List.length_append, List.length_cons, List.length_nil] at hu ⊢
  simp [hu]

/-- C4: for every regular file stored at relative path rel under
projectDir/secret, a successful PrepareDappChart leaves at
targetDir/decoded-secret/rel the empty content when opts.Secret is nil and
the source content stripped of trailing whitespace otherwise (stated for
project and target directories that are not nested in one another and a
filesystem with no duplicate path entries). -/
theorem claim_C4_decoded_secret_content (fs : FS) (pd td : FPath)
    (s : Option SecretKey) (tpl : Bytes) (rel : FPath) (data : Bytes)
    (chart : DappChart) (hnd : (fs.map Prod.fst).Nodup)
    (sep1 : ¬ pd <+: td) (sep2 : ¬ td <+: pd)
    (hmem : (pd ++ SecretDirName :: rel, data) ∈ fs) :
    (prepareDappChart fs pd td s tpl).1 = .ok chart →
    fsRead (applyOps fs (prepareDappChart fs pd td s tpl).2)
      (td ++ DecodedSecretDirName :: rel) =
      some (match s with
            | none => ([] : Bytes)
            | some _ => trimRightSpace data) := by
  show _ → _ = some (secretOut s data)
  have hhelm : pd <+: pd ++ [helmDirName] := List.prefix_append ..
  have hdsv : pd <+: pd ++ [DefaultSecretValuesFile] := List.prefix_append ..
  simp only [prepareDappChart]
  split
  · intro hok
    exact absurd hok (by simp)
  · rename_i copyOps hcopy
    have base : WritesUnder td (copyOps ++
          [FsOp.write (td ++ ["templates", "_dapp_helpers.tpl"]) tpl] ++
          [FsOp.read (pd ++ [DefaultSecretValuesFile])]) :=
      writesUnder_append (writesUnder_append (copyTree_writesUnder hcopy)
        (writesUnder_single_write tpl (List.prefix_append ..)))
        (writesUnder_single_read td (pd ++ [DefaultSecretValuesFile]))
    split
    · split
      · intro hok
        exact absurd hok (by simp)
      · rename_i hsv
        intro _
        refine phase_lookup hnd sep1 sep2
          (writesUnder_append base (setSecretValuesFile_ops_under hsv hdsv).1)
          hmem s ?_
        simp [applyOps_append, applyOps_cons, applyOps_nil, applyOp]
    · intro _
      refine phase_lookup hnd sep1 sep2 base hmem s ?_
      simp [applyOps_append, applyOps_cons, applyOps_nil, applyOp]

/-- Witness for C4: with a non-nil secret the decoded file q/decoded-secret/a
holds the right-trimmed source content. -/
theorem claim_C4_witness :
    fsRead (applyOps fsC4 (prepareDappChart fsC4 ["p"] ["q"] (some "k") []).2)
      ["q", "decoded-secret", "a"] = some ['s'] := by
  have h := claim_C4_decoded_secret_content fsC4 ["p"] ["q"] (some "k") [] ["a"]
    ['s', '\n'] { ChartDir := ["q"], Values := [], Set := [], moreValuesCounter := 0 }
    (by decide) (by decide) (by decide) (by decide) (by decide)
  simpa [trimRightSpace, goIsSpace] using h

theorem digitChar_injOn {d₁ d₂ : Nat} (h₁ : d₁ < 10) (h₂ : d₂ < 10)
    (h : digitChar d₁ = digitChar d₂) : d₁ = d₂ := by
  interval_cases d₁ <;> interval_cases d₂ <;> first | rfl | exact absurd h (by decide)

theorem map_digitChar_inj : ∀ {l₁ l₂ : List Nat}, (∀ d ∈ l₁, d < 10) →
    (∀ d ∈ l₂, d < 10) → l₁.map digitChar = l₂.map digitChar → l₁ = l₂
  | [], [], _, _, _ => rfl
  | [], _ :: _, _, _, h => by simp at h
  | _ :: _, [], _, _, h => by simp at h
  | a :: l₁, b :: l₂, h₁, h₂, h => by
    simp only [List.map_cons, List.cons.injEq] at h
    have hab := digitChar_injOn (h₁ a (List.mem_cons_self a l₁))
      (h₂ b (List.mem_cons_self b l₂)) h.1
    subst hab
    have htl := map_digitChar_inj (fun d hd => h₁ d (List.mem_cons_of_mem _ hd))
      (fun d hd => h₂ d (List.mem_cons_of_mem _ hd)) h.2
    rw [htl]

theorem decimalChars_eq (n : Nat) :
    decimalChars n = (paddedDigits n).reverse.map digitChar := by
  unfold decimalChars paddedDigits
  by_cases h : n = 0 <;> simp [h]
  decide

theorem paddedDigits_lt (n : Nat) : ∀ d ∈ paddedDigits n, d < 10 := by
  intro d hd
  unfold paddedDigits at hd
  by_cases h : n = 0
  · simp [h] at hd; omega
  · simp [h] at hd; exact Nat.digits_lt_base (by norm_num) hd

theorem paddedDigits_inj {m n : Nat} (h : paddedDigits m = paddedDigits n) :
    m = n := by
  unfold paddedDigits at h
  by_cases hm : m = 0 <;> by_cases hn : n = 0 <;> simp [hm, hn] at h ⊢
  · have := congrArg (Nat.ofDigits 10) h
    rw [Nat.ofDigits_digits] at this
    simp [Nat.ofDigits] at this
    omega
  · have := congrArg (Nat.ofDigits 10) h
    rw [Nat.ofDigits_digits] at this
    simp [Nat.ofDigits] at this
    omega
  · exact h

theorem decimalRepr_inj {m n : Nat} (h : decimalRepr m = decimalRepr n) :
    m = n := by
  unfold decimalRepr at h
  rw [List.asString_inj, decimalChars_eq, decimalChars_eq] at h
  exact paddedDigits_inj (List.reverse_injective
    (map_digitChar_inj (fun d hd => paddedDigits_lt m d (List.mem_reverse.mp hd))
      (fun d hd => paddedDigits_lt n d (List.mem_reverse.mp hd)) h))

theorem natYamlName_inj {m n : Nat} (h : natYamlName m = natYamlName n) :
    m = n := by
  unfold natYamlName at h
  have hd := congrArg String.data h
  rw [String.data_append, String.data_append] at hd
  have : (decimalRepr m).data = (decimalRepr n).data :=
    List.append_left_injective _ hd
  exact decimalRepr_inj (String.ext this)

/-- C1: decodeSecretValues and decodeSecret return their input unchanged
with a nil error, for every byte slice and every secret value. -/
theorem claim_C1_decode_pass_through (data : Bytes) (s : Option SecretKey) :
    decodeSecretValues data s = .ok data ∧ decodeSecret data s = .ok data :=
  ⟨rfl, rfl⟩

/-- C3: every successful SetValues or SetSecretValuesFile writes exactly one
new file at ChartDir/more-values/(moreValuesCounter).yaml, appends exactly
that path to Values, increments the per-chart counter field by one and
touches no other chart field; and distinct counters yield distinct file
names, so successive writes of one chart target distinct files and the
name is a function of the chart value alone (no process-wide state). -/
theorem claim_C3_more_values_counter :
    (∀ (chart chart1 : DappChart) (mres : Except Err Bytes) (ops : List FsOp),
        chart.setValues mres = (chart1, none, ops) →
        chart1.Values = chart.Values ++ [moreValuesPath chart] ∧
        chart1.moreValuesCounter = chart.moreValuesCounter + 1 ∧
        (∃ data, ops = [FsOp.write (moreValuesPath chart) data]) ∧
        chart1.ChartDir = chart.ChartDir ∧ chart1.Set = chart.Set) ∧
    (∀ (chart chart1 : DappChart) (fs : FS) (p : FPath) (s : Option SecretKey)
        (ops : List FsOp),
        chart.setSecretValuesFile fs p s = (chart1, none, ops) →
        chart1.Values = chart.Values ++ [moreValuesPath chart] ∧
        chart1.moreValuesCounter = chart.moreValuesCounter + 1 ∧
        (∃ data, ops = [FsOp.read p, FsOp.write (moreValuesPath chart) data]) ∧
        chart1.ChartDir = chart.ChartDir ∧ chart1.Set = chart.Set) ∧
    (∀ m n : Nat, natYamlName m = natYamlName n → m = n) := by
  refine ⟨?_, ?_, fun m n => natYamlName_inj⟩
  · intro chart chart1 mres ops h
    cases mres with
    | error e => simp [DappChart.setValues] at h
    | ok data =>
      simp only [DappChart.setValues, Prod.mk.injEq] at h
      obtain ⟨h1, -, h3⟩ := h
      subst h1 h3
      exact ⟨rfl, rfl, ⟨data, rfl⟩, rfl, rfl⟩
  · intro chart chart1 fs p s ops h
    unfold DappChart.setSecretValuesFile at h
    cases hr : fsRead fs p with
    | none => rw [hr] at h; simp at h
    | some data =>
      rw [hr] at h
      simp only [decodeSecretValues, Prod.mk.injEq] at h
      obtain ⟨h1, -, h3⟩ := h
      subst h1 h3
      exact ⟨rfl, rfl, ⟨data, rfl⟩, rfl, rfl⟩

/-- Witness for C3: a concrete successful SetValues call on `chartEx`. -/
theorem claim_C3_witness :
    ∃ c1 ops, chartEx.setValues (Except.ok ['a']) = (c1, none, ops) ∧
      c1.Values = chartEx.Values ++ [moreValuesPath chartEx] ∧
      c1.moreValuesCounter = chartEx.moreValuesCounter + 1 := by
  refine ⟨_, _, rfl, ?_⟩
  have h := claim_C3_more_values_counter.1 chartEx _ (Except.ok ['a']) _ rfl
  exact ⟨h.1, h.2.1⟩

/-- C9: when SetValues or SetSecretValuesFile returns a non-nil error the
receiver chart is unchanged: the Values append and the counter increment
happen only after the file write succeeded. -/
theorem claim_C9_error_leaves_chart_unchanged :
    (∀ (chart chart1 : DappChart) (mres : Except Err Bytes) (e : Err)
        (ops : List FsOp),
        chart.setValues mres = (chart1, some e, ops) → chart1 = chart) ∧
    (∀ (chart chart1 : DappChart) (fs : FS) (p : FPath) (s : Option SecretKey)
        (e : Err) (ops : List FsOp),
        chart.setSecretValuesFile fs p s = (chart1, some e, ops) → chart1 = chart) := by
  constructor
  · intro chart chart1 mres e ops h
    cases mres with
    | error e' => simp only [DappChart.setValues, Prod.mk.injEq] at h; exact h.1.symm
    | ok data => simp [DappChart.setValues] at h
  · intro chart chart1 fs p s e ops h
    unfold DappChart.setSecretValuesFile at h
    cases hr : fsRead fs p with
    | none =>
      rw [hr] at h
      simp only [Prod.mk.injEq] at h
      exact h.1.symm
    | some data =>
      rw [hr] at h
      simp [decodeSecretValues] at h

/-- Witness for C9: a failing SetSecretValuesFile (absent file) on the
empty filesystem leaves `chartEx` unchanged. -/
theorem claim_C9_witness :
    ∃ c1 e ops, chartEx.setSecretValuesFile [] ["nope"] none = (c1, some e, ops) ∧
      c1 = chartEx := by
  refine ⟨_, _, _, rfl, ?_⟩
  exact claim_C9_error_leaves_chart_unchanged.2 chartEx _ [] ["nope"] none _ _ rfl

/-- C10: Deploy invokes DeployHelmChart on the chart's ChartDir with the
chart-owned Set and Values entries preceding the caller-supplied ones and
with KubeContext, DryRun and Debug passed through unchanged; the chart
value itself is left untouched (the embedding is pure in the chart). -/
theorem claim_C10_deploy_arguments {α : Type}
    (deployHelmChart : FPath → String → String → HelmChartOptions → α)
    (chart : DappChart) (releaseName ns : String) (opts : HelmChartOptions) :
    chart.deploy deployHelmChart releaseName ns opts =
      deployHelmChart chart.ChartDir releaseName ns
        { Set := chart.Set ++ opts.Set
          Values := chart.Values ++ opts.Values
          KubeContext := opts.KubeContext
          DryRun := opts.DryRun
          Debug := opts.Debug } :=
  rfl

/-- C5: when the project directory holds no .git directory the run is not
aborted by the check: the core proceeds and succeeds (whenever the
remaining steps do) with a nil LocalGit in the images-cleanup options —
which per the spec-modelled resolver yields the empty git snapshot for
every ref-based policy — while an error from the existence check itself
aborts the run with that error. -/
theorem claim_C5_absent_git_repo (cmdData : CmdData) (c : CommonCmdData)
    (env : RunEnv) (pd tmpd ir sr : String) (cfg : WerfConfig)
    (pol : CleanupPolicies)
    (h1 : env.werfInit = .ok ()) (h2 : env.lockInit = .ok ())
    (h3 : env.dockerRegistryInit c.InsecureRepo = .ok ())
    (h4 : env.dockerInit c.DockerConfig = .ok ())
    (h5 : env.kubeInit (env.getKubeContext c.KubeContext) c.KubeConfig = .ok ())
    (h6 : env.getProjectDir = .ok pd)
    (h7 : env.createProjectTmpDir = .ok tmpd)
    (h8 : env.getWerfConfig pd = .ok cfg)
    (h9 : env.getImagesRepo cfg.Meta.Project = .ok ir)
    (h10 : env.getStagesRepo = .ok sr)
    (h11 : env.getImagesCleanupPolicies = .ok pol) :
    (env.dirExists (pd ++ "/.git") = .ok false →
      ∃ opts, runCleanupCore cmdData c env = .ok opts ∧
        opts.ImagesCleanupOptions.LocalGit = none ∧
        ∀ resolve, gitRefSnapshot resolve opts.ImagesCleanupOptions.LocalGit =
          emptyGitRefSnapshot) ∧
    (∀ e, env.dirExists (pd ++ "/.git") = .error e →
      runCleanupCore cmdData c env = .error e) := by
  constructor
  · intro hde
    have hcore : runCleanupCore cmdData c env = .ok
        { StagesCleanupOptions :=
            { CommonRepoOptions :=
                { ImagesRepo := ir, StagesStorage := sr,
                  ImagesNames := cfg.Images.map (fun i => i.Name),
                  DryRun := c.DryRun },
              CommonProjectOptions :=
                { ProjectName := cfg.Meta.Project,
                  CommonOptions := { DryRun := c.DryRun } } },
          ImagesCleanupOptions :=
            { CommonRepoOptions :=
                { ImagesRepo := ir, StagesStorage := sr,
                  ImagesNames := cfg.Images.map (fun i => i.Name),
                  DryRun := c.DryRun },
              LocalGit := none, WithoutKube := cmdData.WithoutKube,
              Policies := pol } } := by
      simp [runCleanupCore, h1, h2, h3, h4, h5, h6, h7, h8, h9, h10, h11, hde]
    exact ⟨_, hcore, rfl, fun resolve => rfl⟩
  · intro e hde
    simp [runCleanupCore, h1, h2, h3, h4, h5, h6, h7, h8, h9, h10, hde]

/-- Witness for C5: on the concrete environment without a .git directory
the core succeeds with a nil local git repository. -/
theorem claim_C5_witness :
    ∃ opts, runCleanupCore cmdDataEx commonCmdDataEx envEx = .ok opts ∧
      opts.ImagesCleanupOptions.LocalGit = none := by
  obtain ⟨opts, ho, hn, -⟩ := (claim_C5_absent_git_repo cmdDataEx commonCmdDataEx
    envEx "proj" "tmp" "registry.example.com/demo" ":local"
    { Meta := { Project := "demo" }, Images := [{ Name := "app" }] } []
    rfl rfl rfl rfl rfl rfl rfl rfl rfl rfl rfl).1 rfl
  exact ⟨opts, ho, hn⟩

/-- C6: the one --dry-run value reaches both phases — it is the DryRun of
the common repo options (used by the images phase) and the DryRun of the
project options (used by the stages phase) whenever the run constructs its
options — and in the spec-modelled cleaner a dry run produces the very
same classification as a real run on the same inputs, differing only in
whether the deletions are issued. -/
theorem claim_C6_dry_run_propagation :
    (∀ (cmdData : CmdData) (c : CommonCmdData) (env : RunEnv)
        (opts : CleanupOptions),
      runCleanupCore cmdData c env = .ok opts →
      opts.ImagesCleanupOptions.CommonRepoOptions.DryRun = c.DryRun ∧
      opts.StagesCleanupOptions.CommonRepoOptions.DryRun = c.DryRun ∧
      opts.StagesCleanupOptions.CommonProjectOptions.CommonOptions.DryRun =
        c.DryRun) ∧
    (∀ (o : SpecCleanOptions) (tags : List SpecTag) (snapshot live : List String)
        (now : Nat),
      (specClean { o with dryRun := true } tags snapshot live now).1 =
        (specClean { o with dryRun := false } tags snapshot live now).1 ∧
      (specClean { o with dryRun := true } tags snapshot live now).2 = [] ∧
      (specClean { o with dryRun := false } tags snapshot live now).2 =
        ((specClean { o with dryRun := false } tags snapshot live now).1.filter
          (fun e => !e.2)).map Prod.fst) := by
  constructor
  · intro cmdData c env opts h
    unfold runCleanupCore at h
    repeat
      any_goals
        first
        | split at h
        | (replace h := h.symm; split at h)
    all_goals cases h
    all_goals exact ⟨rfl, rfl, rfl⟩
  · intro o tags snapshot live now
    exact ⟨rfl, by simp [specClean], by simp [specClean]⟩

/-- Witness for C6: a concrete successful run whose options carry the
dry-run value of the common flag data. -/
theorem claim_C6_witness :
    ∃ opts, runCleanupCore cmdDataEx commonCmdDataEx envEx = .ok opts ∧
      opts.ImagesCleanupOptions.CommonRepoOptions.DryRun =
        commonCmdDataEx.DryRun := by
  refine ⟨_, rfl, ?_⟩
  exact (claim_C6_dry_run_propagation.1 cmdDataEx commonCmdDataEx envEx _ rfl).1

/-- C7, counterexample to exactness: the registration sequence of NewCmd
also contains the dir flag (from common.SetupDir, with SetupTmpDir and
SetupHomeDir alongside), which is not among the nine flags the claim
lists. -/
theorem claim_C7_counterexample :
    "dir" ∈ newCmdFlags.map FlagSpec.name ∧
    "dir" ∉ ["stages-storage", "images-repo", "docker-config",
      "insecure-repo", "images-cleanup-policies", "kube-config",
      "kube-context", "dry-run", "without-kube"] ∧
    newCmdFlags.map FlagSpec.name ≠
      ["stages-storage", "images-repo", "docker-config", "insecure-repo",
       "images-cleanup-policies", "kube-config", "kube-context", "dry-run",
       "without-kube"] := by
  decide

/-- C7 (amended): NewCmd registers the nine listed flags plus dir,
tmp-dir and home-dir from the common setup helpers; --without-kube is a
boolean flag defaulting to false and its value is passed unchanged as the
WithoutKube field of the images-cleanup options on every run that builds
its options. -/
theorem claim_C7_flags_registered :
    newCmdFlags.map FlagSpec.name =
      ["dir", "tmp-dir", "home-dir", "stages-storage", "images-repo",
       "docker-config", "insecure-repo", "images-cleanup-policies",
       "kube-config", "kube-context", "dry-run", "without-kube"] ∧
    ({ name := "without-kube", isBool := true, boolDefault := false } :
      FlagSpec) ∈ newCmdFlags ∧
    ∀ (cmdData : CmdData) (c : CommonCmdData) (env : RunEnv)
      (opts : CleanupOptions),
      runCleanupCore cmdData c env = .ok opts →
      opts.ImagesCleanupOptions.WithoutKube = cmdData.WithoutKube := by
  refine ⟨by decide, by decide, ?_⟩
  intro cmdData c env opts h
  unfold runCleanupCore at h
  repeat
    any_goals
      first
      | split at h
      | (replace h := h.symm; split at h)
  all_goals cases h
  all_goals rfl

/-- Witness for C7: a concrete successful run passing WithoutKube through. -/
theorem claim_C7_witness :
    ∃ opts, runCleanupCore cmdDataEx commonCmdDataEx envEx = .ok opts ∧
      opts.ImagesCleanupOptions.WithoutKube = cmdDataEx.WithoutKube := by
  refine ⟨_, rfl, ?_⟩
  exact claim_C7_flags_registered.2.2 cmdDataEx commonCmdDataEx envEx _ rfl

/-- C8: once the spec-modelled coordinator Run returns, the project lock
is no longer held, on every exit path: lock unavailable, fatal abort in
the images phase, fatal abort in the stages phase, or full success. -/
theorem claim_C8_lock_released (lockAvailable : Bool)
    (imagesPhase stagesPhase : Except Err (List String)) (l : CoordLock)
    (hl : l.held = false) :
    ((coordinatorRun lockAvailable imagesPhase stagesPhase l).2).held = false := by
  cases lockAvailable with
  | false => simpa [coordinatorRun] using hl
  | true =>
    cases imagesPhase <;> cases stagesPhase <;>
      simp [coordinatorRun, acquireLock, releaseLock]

/-- Witness for C8: a fatal images phase still returns with the lock
released. -/
theorem claim_C8_witness :
    ((coordinatorRun true (.error "registry unreachable") (.ok [])
      { held := false }).2).held = false :=
  claim_C8_lock_released true (.error "registry unreachable") (.ok [])
    { held := false } rfl
